import Mathlib

/-!
Verification development for the arena-escrow contract
(contracts/arena-escrow/src/execute.rs and state.rs).

The contract state and every state-mutating entry point are embedded
shallowly.  Storage maps (cw-storage-plus Map) become association lists
keyed by address strings, storage items (Item) become Option fields, and
every fallible entry point returns Except: an error result models the
transactional abort of the host (no state change, no queued effects).

The multi-asset arithmetic library (cw_balance: BalanceVerified with
checked_add, checked_sub, is_empty, split, transmit_all), the ownership
capability (cw_ownable), the query helper is_locked and the instantiate
entry point are not part of the available sources; they are modelled from
the specification where marked.
-/

namespace ArenaEscrow

/-- Modelled from the spec: an asset component key.  An AssetBundle holds
native-unit amounts keyed by denomination, fungible-token amounts keyed by
the issuing contract, and non-fungible holdings keyed by issuing contract
and token id (each whole token is one indivisible unit). -/
inductive AssetKey where
  | native (denom : String)
  | cw20 (contractAddr : String)
  | cw721 (contractAddr : String) (tokenId : String)
deriving DecidableEq, Repr

/-- Modelled from the spec: a multi-asset bundle (cw_balance BalanceVerified),
a finite collection of asset components with a nonnegative amount each. -/
abbrev Bundle := List (AssetKey × Nat)

namespace Bundle

/-- Total amount a bundle holds of one asset component. -/
def amountOf (b : Bundle) (k : AssetKey) : Nat :=
  b.foldr (fun p acc => if p.1 = k then p.2 + acc else acc) 0

/-- Add an amount of one asset component into a bundle: the first entry with
that key is increased, a missing key is appended. -/
def addKey (a : Bundle) (k : AssetKey) (v : Nat) : Bundle :=
  match a with
  | [] => [(k, v)]
  | p :: rest => if p.1 = k then (p.1, p.2 + v) :: rest else p :: addKey rest k v

/-- Modelled from the spec: bundle addition (cw_balance checked_add without
the overflow guard); componentwise sum. -/
def add (a b : Bundle) : Bundle :=
  b.foldl (fun acc q => addKey acc q.1 q.2) a

/-- Amounts are 128-bit unsigned integers in the source. -/
def MAXU128 : Nat := 2 ^ 128

/-- Modelled from the spec: checked bundle addition; fails when any
component sum would overflow a 128-bit amount. -/
def checked_add (a b : Bundle) : Option Bundle :=
  if b.all (fun q => amountOf a q.1 + amountOf b q.1 < MAXU128) then some (add a b) else none

/-- Modelled from the spec: checked bundle subtraction; fails when any
component of the second bundle exceeds the first.  Components that reach
zero are removed. -/
def checked_sub (a b : Bundle) : Option Bundle :=
  if b.all (fun q => amountOf b q.1 ≤ amountOf a q.1) then
    some ((a.map (fun p => (p.1, p.2 - amountOf b p.1))).filter (fun p => p.2 != 0))
  else none

end Bundle

/-- A cw-storage-plus Map keyed by a (validated) address. -/
abbrev StoreMap (α : Type) := List (String × α)

namespace StoreMap

/-- may_load: the stored value for a key, if present. -/
def get? (m : StoreMap α) (k : String) : Option α :=
  match m with
  | [] => none
  | p :: rest => if p.1 = k then some p.2 else get? rest k

/-- save: store a value under a key, replacing any existing entry. -/
def insert (m : StoreMap α) (k : String) (v : α) : StoreMap α :=
  match m with
  | [] => [(k, v)]
  | p :: rest => if p.1 = k then (k, v) :: rest else p :: insert rest k v

/-- remove: delete the entry under a key. -/
def remove (m : StoreMap α) (k : String) : StoreMap α :=
  m.filter (fun p => p.1 != k)

/-- has: whether a key is present. -/
def has (m : StoreMap α) (k : String) : Bool :=
  (m.get? k).isSome

/-- Total amount stored across all entries of a bundle map for one
asset component (used to state the conservation invariant). -/
def sumAmount (m : StoreMap Bundle) (k : AssetKey) : Nat :=
  (m.map (fun p => Bundle.amountOf p.2 k)).sum

end StoreMap

/-- Errors of the contract (ContractError plus the delegated arithmetic and
storage errors it propagates). -/
inductive ContractError where
  | locked
  | noneDue
  | notFunded
  | unauthorized
  | overflow
  | underflow
  | notFound
  | zeroWeights
deriving DecidableEq, Repr

/-- Outbound effects queued on a response: the activation instruction sent to
the owning competition core, and the transfer instructions produced by
cw_balance transmit_all (modelled from the spec as one instruction per asset
component addressed to a recipient). -/
inductive CosmosMsg where
  | activate (contractAddr : String)
  | transfer (recipient : String) (key : AssetKey) (amount : Nat)
deriving DecidableEq, Repr

/-- Modelled from the spec: transmit_all converts a bundle into outbound
transfer instructions addressed to a recipient. -/
def Bundle.transmit_all (b : Bundle) (recipient : String) : List CosmosMsg :=
  b.map (fun p => CosmosMsg.transfer recipient p.1 p.2)

/-- The persisted state of one escrow instance (state.rs): the named Item
slots TOTAL_BALANCE and IS_LOCKED and the keyed Maps BALANCE, INITIAL_DUE,
DUE, IS_FUNDED and PRESET_DISTRIBUTION.  TOTAL_BALANCE is an Option because
the slot is removed by the settlement sweep. -/
structure EscrowState where
  total_balance : Option Bundle
  balance : StoreMap Bundle
  due : StoreMap Bundle
  initial_due : StoreMap Bundle
  is_funded : StoreMap Bool
  is_locked : Bool
  preset_distribution : StoreMap (List (String × Nat))
deriving DecidableEq, Repr

/-- is_fully_funded (state.rs): the Due map is empty. -/
def is_fully_funded (s : EscrowState) : Bool :=
  s.due.isEmpty

/-- is_funded (state.rs): the party has no Due entry. -/
def is_funded (s : EscrowState) (addr : String) : Bool :=
  !(s.due.has addr)

/-- Modelled from the spec: the is_locked query helper (query.rs is not in
the available sources) reads the IsLocked flag. -/
def is_locked (s : EscrowState) : Bool :=
  s.is_locked

/-- Modelled from the spec: instantiation creates the ledger with an initial
Due map, an empty Balance map, an empty TotalBalance and the lock cleared. -/
def instantiate (dues : List (String × Bundle)) : EscrowState :=
  { total_balance := some []
    balance := []
    due := dues.foldl (fun m d => m.insert d.1 d.2) []
    initial_due := dues.foldl (fun m d => m.insert d.1 d.2) []
    is_funded := dues.foldl (fun m d => m.insert d.1 false) []
    is_locked := false
    preset_distribution := [] }

/-- The activation messages pushed when funding completes
(execute.rs lines 210-213): one instruction when an owner is configured. -/
def activationMsgs (owner : Option String) : List CosmosMsg :=
  (owner.map CosmosMsg.activate).toList

/-- The transfer instructions contributed by draining, in order, each listed
address whose balance in the fixed map `m` is stored and non-empty (the
per-address message contribution of the withdraw loop). -/
def drainMsgs (m : StoreMap Bundle) (addrs : List String) : List CosmosMsg :=
  match addrs with
  | [] => []
  | a :: rest =>
    (match m.get? a with
     | none => []
     | some b => if b.isEmpty then [] else b.transmit_all a) ++ drainMsgs m rest

/-- The transfer instructions draining every non-empty entry of a balance
map, in storage order: what the settlement sweep emits. -/
def sweepMsgs (m : StoreMap Bundle) : List CosmosMsg :=
  m.foldr (fun p acc => (if p.2.isEmpty then [] else p.2.transmit_all p.1) ++ acc) []

/-- receive_balance (execute.rs lines 182-229).  The `owner` parameter stands
for the cw_ownable ownership slot consulted at line 210.  Note the source
binds `balance` to the value returned by BALANCE.update, which is the new
cumulative balance of the party, and then subtracts it from the stored due
and adds it to TOTAL_BALANCE. -/
def receive_balance (owner : Option String) (s : EscrowState) (addr : String)
    (balance : Bundle) : Except ContractError (EscrowState × List CosmosMsg) :=
  if s.due.has addr then
    match Bundle.checked_add balance ((s.balance.get? addr).getD []) with
    | none => .error .overflow
    | some cum =>
      let s1 := { s with balance := s.balance.insert addr cum }
      match s1.due.get? addr with
      | none => .error .notFound
      | some due =>
        match Bundle.checked_sub due cum with
        | none => .error .underflow
        | some new_due =>
          let step :=
            if new_due.isEmpty then
              let sa := { s1 with due := s1.due.remove addr
                                  is_funded := s1.is_funded.insert addr true }
              if sa.due.isEmpty then ({ sa with is_locked := true }, activationMsgs owner)
              else (sa, ([] : List CosmosMsg))
            else ({ s1 with due := s1.due.insert addr new_due }, ([] : List CosmosMsg))
          match step.1.total_balance with
          | none => .error .notFound
          | some t =>
            match Bundle.checked_add t cum with
            | none => .error .overflow
            | some t2 => .ok ({ step.1 with total_balance := some t2 }, step.2)
  else .error .noneDue

/-- receive_native (execute.rs lines 129-137): the attached funds become a
native-only bundle. -/
def receive_native (owner : Option String) (s : EscrowState) (sender : String)
    (funds : List (String × Nat)) : Except ContractError (EscrowState × List CosmosMsg) :=
  receive_balance owner s sender (funds.map (fun c => (AssetKey.native c.1, c.2)))

/-- receive_cw20 (execute.rs lines 140-158): the notified fungible amount,
keyed by the calling token contract, plus any attached native funds. -/
def receive_cw20 (owner : Option String) (s : EscrowState) (tokenContract : String)
    (funds : List (String × Nat)) (sender : String) (amount : Nat) :
    Except ContractError (EscrowState × List CosmosMsg) :=
  receive_balance owner s sender
    (funds.map (fun c => (AssetKey.native c.1, c.2)) ++ [(AssetKey.cw20 tokenContract, amount)])

/-- receive_cw721 (execute.rs lines 161-179): the notified token id, keyed by
the calling collection contract, plus any attached native funds. -/
def receive_cw721 (owner : Option String) (s : EscrowState) (tokenContract : String)
    (funds : List (String × Nat)) (sender : String) (tokenId : String) :
    Except ContractError (EscrowState × List CosmosMsg) :=
  receive_balance owner s sender
    (funds.map (fun c => (AssetKey.native c.1, c.2)) ++ [(AssetKey.cw721 tokenContract tokenId, 1)])

/-- The loop body of inner_withdraw (execute.rs lines 32-68), one address at
a time, threading the running total, the queued transfer instructions and the
state.  With `is_processing` set the total_balance and Due bookkeeping is
skipped (the settlement sweep). -/
def inner_withdraw_loop (is_processing : Bool) (addrs : List String) (s : EscrowState)
    (total : Bundle) (msgs : List CosmosMsg) :
    Except ContractError (EscrowState × Bundle × List CosmosMsg) :=
  match addrs with
  | [] => .ok (s, total, msgs)
  | addr :: rest =>
    match s.balance.get? addr with
    | none => inner_withdraw_loop is_processing rest s total msgs
    | some b =>
      if b.isEmpty then inner_withdraw_loop is_processing rest s total msgs
      else
        let msgs1 := msgs ++ b.transmit_all addr
        let s1 := { s with balance := s.balance.remove addr }
        if is_processing then inner_withdraw_loop is_processing rest s1 total msgs1
        else
          match Bundle.checked_sub total b with
          | none => .error .underflow
          | some total1 =>
            match s1.due.get? addr with
            | none =>
              inner_withdraw_loop is_processing rest
                { s1 with is_funded := s1.is_funded.insert addr false
                          due := s1.due.insert addr b } total1 msgs1
            | some x =>
              match Bundle.checked_add x b with
              | none => .error .overflow
              | some nd =>
                inner_withdraw_loop is_processing rest
                  { s1 with is_funded := s1.is_funded.insert addr false
                            due := s1.due.insert addr nd } total1 msgs1

/-- inner_withdraw (execute.rs lines 17-82): loads TOTAL_BALANCE unless
processing, drains the given addresses, then stores the reduced total or
removes the slot. -/
def inner_withdraw (s : EscrowState) (addrs : List String) (is_processing : Bool) :
    Except ContractError (EscrowState × List CosmosMsg) :=
  let t0 : Except ContractError Bundle :=
    if is_processing then .ok []
    else
      match s.total_balance with
      | none => .error .notFound
      | some t => .ok t
  match t0 with
  | .error e => .error e
  | .ok t =>
    match inner_withdraw_loop is_processing addrs s t [] with
    | .error e => .error e
    | .ok (s1, total1, msgs) =>
      if is_processing then .ok ({ s1 with total_balance := none }, msgs)
      else .ok ({ s1 with total_balance := some total1 }, msgs)

/-- withdraw (execute.rs lines 85-96): the direct self-withdraw path, refused
while the escrow is locked. -/
def withdraw (s : EscrowState) (sender : String) :
    Except ContractError (EscrowState × List CosmosMsg) :=
  if is_locked s then .error .locked
  else inner_withdraw s [sender] false

/-- set_distribution (execute.rs lines 109-126): store the caller's override
list. -/
def set_distribution (s : EscrowState) (sender : String)
    (distribution : List (String × Nat)) : EscrowState :=
  { s with preset_distribution := s.preset_distribution.insert sender distribution }

/-- lock (execute.rs lines 313-323): owner-only explicit lock flag update. -/
def lock (owner : Option String) (s : EscrowState) (sender : String) (value : Bool) :
    Except ContractError EscrowState :=
  if owner = some sender then .ok { s with is_locked := value }
  else .error .unauthorized

/-- Sum of the relative weights of a distribution list. -/
def weightSum (dist : List (String × Nat)) : Nat :=
  (dist.map Prod.snd).sum

/-- Modelled from the spec: one recipient's floor share of a bundle, each
component being the integer floor of amount times weight over the weight sum;
zero components are dropped. -/
def Bundle.floorShare (total : Bundle) (w S : Nat) : Bundle :=
  (total.map (fun p => (p.1, p.2 * w / S))).filter (fun p => p.2 != 0)

/-- Modelled from the spec: the residual of a split, per component the total
amount minus the sum of all floor shares; zero components are dropped. -/
def Bundle.residualShare (total : Bundle) (dist : List (String × Nat)) (S : Nat) : Bundle :=
  (total.map (fun p => (p.1, p.2 - (dist.map (fun m => p.2 * m.2 / S)).sum))).filter
    (fun p => p.2 != 0)

/-- Modelled from the spec: the residual bundle is assigned entirely to the
remainder recipient: added into its first listed share, or appended when the
remainder recipient is not itself listed (skipped when there is nothing to
assign). -/
def addRemainder (shares : List (String × Bundle)) (rem : String) (r : Bundle) :
    List (String × Bundle) :=
  match shares with
  | [] => if r.isEmpty then [] else [(rem, r)]
  | (a, b) :: rest =>
    if a = rem then (a, Bundle.add b r) :: rest else (a, b) :: addRemainder rest rem r

/-- Modelled from the spec: the weighted split of cw_balance.  Every listed
recipient receives its floor share of each component and the remainder
recipient additionally receives the residual.  Fails when the weights sum to
zero. -/
def Bundle.split (total : Bundle) (dist : List (String × Nat)) (rem : String) :
    Except ContractError (List (String × Bundle)) :=
  if weightSum dist = 0 then .error .zeroWeights
  else
    .ok (addRemainder (dist.map (fun m => (m.1, Bundle.floorShare total m.2 (weightSum dist))))
      rem (Bundle.residualShare total dist (weightSum dist)))

/-- The save loop of distribute (execute.rs lines 266-288): each computed
share is written to BALANCE with a plain save; a recipient with a preset
distribution has its share split again (the recipient itself as remainder
fallback) and the sub-shares saved instead. -/
def save_splits (s : EscrowState) (amounts : List (String × Bundle)) :
    Except ContractError EscrowState :=
  match amounts with
  | [] => .ok s
  | da :: rest =>
    match s.preset_distribution.get? da.1 with
    | some preset =>
      match Bundle.split da.2 preset da.1 with
      | .error e => .error e
      | .ok subs =>
        save_splits
          { s with balance := subs.foldl (fun acc nb => acc.insert nb.1 nb.2) s.balance } rest
    | none => save_splits { s with balance := s.balance.insert da.1 da.2 } rest

/-- The recomputation step of distribute (execute.rs lines 244-289): with a
distribution supplied, TOTAL_BALANCE is loaded, split, and the Balance map
replaced by the computed shares (preset overrides applied); with none the
state is untouched. -/
def distribute_step (s : EscrowState) (distribution : Option (List (String × Nat)))
    (remainder_addr : String) : Except ContractError EscrowState :=
  match distribution with
  | none => .ok s
  | some dist =>
    match s.total_balance with
    | none => .error .notFound
    | some total =>
      match Bundle.split total dist remainder_addr with
      | .error e => .error e
      | .ok amounts => save_splits { s with balance := [] } amounts

/-- distribute (execute.rs lines 232-310): owner-only settlement.  After the
recomputation step the lock is cleared, DUE, IS_FUNDED and
PRESET_DISTRIBUTION are wiped and every BALANCE key is swept through the
processing variant of inner_withdraw. -/
def distribute (owner : Option String) (s : EscrowState) (sender : String)
    (distribution : Option (List (String × Nat))) (remainder_addr : String) :
    Except ContractError (EscrowState × List CosmosMsg) :=
  if owner = some sender then
    if is_fully_funded s then
      match distribute_step s distribution remainder_addr with
      | .error e => .error e
      | .ok s1 =>
        let s2 := { s1 with is_locked := false
                            due := ([] : StoreMap Bundle)
                            is_funded := ([] : StoreMap Bool)
                            preset_distribution := ([] : StoreMap (List (String × Nat))) }
        inner_withdraw s2 (s2.balance.map Prod.fst) true
    else .error .notFunded
  else .error .unauthorized

/-- Concrete scenario: a one-party escrow right after its full deposit of
10 native "u" under owner "own" (used by witnesses). -/
def fundedOneParty : EscrowState :=
  { total_balance := some [(AssetKey.native "u", 10)]
    balance := [("A", [(AssetKey.native "u", 10)])]
    due := []
    initial_due := [("A", [(AssetKey.native "u", 10)])]
    is_funded := [("A", true)]
    is_locked := true
    preset_distribution := [] }

/-- Concrete scenario: a fully funded escrow holding one unit of "u" for
party A (used by witnesses and counterexamples). -/
def oneUnitFunded : EscrowState :=
  { total_balance := some [(AssetKey.native "u", 1)]
    balance := [("A", [(AssetKey.native "u", 1)])]
    due := []
    initial_due := []
    is_funded := []
    is_locked := true
    preset_distribution := [] }

/-- Concrete scenario: the state left by settling oneUnitFunded with the
distribution [(A,1),(B,1)] and remainder A: B keeps an empty Balance entry. -/
def settledEmptyEntry : EscrowState :=
  { total_balance := none
    balance := [("B", [])]
    due := []
    initial_due := []
    is_funded := []
    is_locked := false
    preset_distribution := [] }

/-- Concrete scenario: the state left by settling oneUnitFunded with no
distribution supplied: fully drained, TotalBalance slot removed. -/
def settledDrained : EscrowState :=
  { total_balance := none
    balance := []
    due := []
    initial_due := []
    is_funded := []
    is_locked := false
    preset_distribution := [] }

/-- Concrete scenario: a fresh escrow with A owing 100 "u" and B owing
50 "u" (used by the round-trip witness). -/
def twoPartyEscrow : EscrowState :=
  { total_balance := some []
    balance := []
    due := [("A", [(AssetKey.native "u", 100)]), ("B", [(AssetKey.native "u", 50)])]
    initial_due := [("A", [(AssetKey.native "u", 100)]), ("B", [(AssetKey.native "u", 50)])]
    is_funded := [("A", false), ("B", false)]
    is_locked := false
    preset_distribution := [] }

/-- Concrete scenario: a fully funded escrow in which depositor D has
registered the override [(X,1)] (used by the overwrite witness). -/
def presetEscrow : EscrowState :=
  { total_balance := some [(AssetKey.native "u", 100)]
    balance := []
    due := []
    initial_due := []
    is_funded := []
    is_locked := false
    preset_distribution := [("D", [("X", 1)])] }

/-- Concrete scenario: an escrow whose only stored lock flag matters (used
by the locked-withdraw witness). -/
def lockedEscrow : EscrowState :=
  { total_balance := some []
    balance := []
    due := []
    initial_due := []
    is_funded := []
    is_locked := true
    preset_distribution := [] }

/-! ### Association-list storage lemmas -/

theorem StoreMap.get?_insert_self (m : StoreMap α) (k : String) (v : α) :
    (m.insert k v).get? k = some v := by
  induction m with
  | nil => simp [StoreMap.insert, StoreMap.get?]
  | cons p rest ih =>
    by_cases h : p.1 = k
    · simp [StoreMap.insert, StoreMap.get?, h]
    · simp [StoreMap.insert, StoreMap.get?, h, ih]

theorem StoreMap.get?_remove_self (m : StoreMap α) (k : String) :
    (m.remove k).get? k = none := by
  induction m with
  | nil => simp [StoreMap.remove, StoreMap.get?]
  | cons p rest ih =>
    by_cases h : p.1 = k
    · simpa [StoreMap.remove, List.filter_cons, h] using ih
    · simpa [StoreMap.remove, List.filter_cons, StoreMap.get?, h] using ih

theorem StoreMap.get?_remove_ne (m : StoreMap α) (k j : String) (h : j ≠ k) :
    (m.remove k).get? j = m.get? j := by
  induction m with
  | nil => rfl
  | cons p rest ih =>
    show StoreMap.get? ((p :: rest).filter (fun q => q.1 != k)) j = StoreMap.get? (p :: rest) j
    rw [List.filter_cons]
    by_cases hp : p.1 = k
    · rw [if_neg (by simp [hp])]
      have hpj : ¬ p.1 = j := fun hh => h (by rw [← hh]; exact hp)
      rw [show StoreMap.get? (p :: rest) j = StoreMap.get? rest j by
        simp only [StoreMap.get?]
        rw [if_neg hpj]]
      exact ih
    · rw [if_pos (by simp [hp])]
      simp only [StoreMap.get?]
      by_cases hpj : p.1 = j
      · rw [if_pos hpj, if_pos hpj]
      · rw [if_neg hpj, if_neg hpj]
        exact ih

theorem StoreMap.get?_eq_none_iff (m : StoreMap α) (k : String) :
    m.get? k = none ↔ ∀ p ∈ m, p.1 ≠ k := by
  induction m with
  | nil => simp [StoreMap.get?]
  | cons p rest ih =>
    by_cases h : p.1 = k
    · simp [StoreMap.get?, h]
    · simp [StoreMap.get?, h, ih]

theorem StoreMap.get?_of_mem_nodup {m : StoreMap α} {p : String × α}
    (hnd : (m.map Prod.fst).Nodup) (hp : p ∈ m) : m.get? p.1 = some p.2 := by
  induction m with
  | nil => cases hp
  | cons q rest ih =>
    rcases List.mem_cons.mp hp with h | h
    · subst h; simp [StoreMap.get?]
    · by_cases hq : q.1 = p.1
      · exfalso
        have hmem : p.1 ∈ rest.map Prod.fst := List.mem_map_of_mem Prod.fst h
        have := (List.nodup_cons.mp hnd).1
        exact this (hq ▸ hmem)
      · simpa [StoreMap.get?, hq] using ih (List.nodup_cons.mp hnd).2 h

theorem StoreMap.nodup_map_fst_remove {m : StoreMap α} (k : String)
    (hnd : (m.map Prod.fst).Nodup) : ((m.remove k).map Prod.fst).Nodup :=
  ((List.filter_sublist m).map Prod.fst).nodup hnd

theorem StoreMap.mem_map_fst_insert {m : StoreMap α} {k j : String} {v : α} :
    j ∈ ((m.insert k v).map Prod.fst) → j ∈ m.map Prod.fst ∨ j = k := by
  induction m with
  | nil =>
    simp only [StoreMap.insert, List.map_cons, List.map_nil, List.mem_singleton]
    exact fun h => Or.inr h
  | cons p rest ih =>
    by_cases h : p.1 = k
    · simp only [StoreMap.insert, h, if_true, List.map_cons, List.mem_cons]
      rintro (rfl | hj)
      · exact Or.inr rfl
      · exact Or.inl (Or.inr hj)
    · simp only [StoreMap.insert, h, if_false, List.map_cons, List.mem_cons]
      rintro (rfl | hj)
      · exact Or.inl (Or.inl rfl)
      · rcases ih hj with h1 | h1
        · exact Or.inl (Or.inr h1)
        · exact Or.inr h1

theorem StoreMap.nodup_map_fst_insert {m : StoreMap α} (k : String) (v : α)
    (hnd : (m.map Prod.fst).Nodup) : ((m.insert k v).map Prod.fst).Nodup := by
  induction m with
  | nil => simp [StoreMap.insert]
  | cons p rest ih =>
    rw [List.map_cons, List.nodup_cons] at hnd
    obtain ⟨hp, hrest⟩ := hnd
    simp only [StoreMap.insert]
    by_cases h : p.1 = k
    · rw [if_pos h, List.map_cons, List.nodup_cons]
      exact ⟨h ▸ hp, hrest⟩
    · rw [if_neg h, List.map_cons, List.nodup_cons]
      refine ⟨?_, ih hrest⟩
      intro hmem
      rcases StoreMap.mem_map_fst_insert hmem with h1 | h1
      · exact hp h1
      · exact h h1

theorem StoreMap.nodup_foldl_insert (l : List (String × α)) :
    ∀ (m : StoreMap α), (m.map Prod.fst).Nodup →
      ((l.foldl (fun acc nb => acc.insert nb.1 nb.2) m).map Prod.fst).Nodup := by
  induction l with
  | nil => intro m hm; simpa using hm
  | cons q rest ih =>
    intro m hm
    exact ih (m.insert q.1 q.2) (StoreMap.nodup_map_fst_insert q.1 q.2 hm)

/-! ### Bundle arithmetic lemmas -/

theorem Bundle.amountOf_nil (k : AssetKey) : Bundle.amountOf [] k = 0 := rfl

theorem Bundle.amountOf_cons (p : AssetKey × Nat) (b : Bundle) (k : AssetKey) :
    Bundle.amountOf (p :: b) k =
      if p.1 = k then p.2 + Bundle.amountOf b k else Bundle.amountOf b k := rfl

theorem Bundle.amountOf_cons_mk (x : AssetKey) (n : Nat) (b : Bundle) (k : AssetKey) :
    Bundle.amountOf ((x, n) :: b) k =
      if x = k then n + Bundle.amountOf b k else Bundle.amountOf b k := rfl

theorem Bundle.amountOf_eq_zero (b : Bundle) (k : AssetKey) (h : ∀ p ∈ b, p.1 ≠ k) :
    Bundle.amountOf b k = 0 := by
  induction b with
  | nil => rfl
  | cons p rest ih =>
    rw [Bundle.amountOf_cons, if_neg (h p (List.mem_cons_self _ _))]
    exact ih (fun q hq => h q (List.mem_cons_of_mem _ hq))

theorem Bundle.amountOf_addKey (a : Bundle) (k : AssetKey) (v : Nat) (j : AssetKey) :
    Bundle.amountOf (Bundle.addKey a k v) j =
      Bundle.amountOf a j + if k = j then v else 0 := by
  induction a with
  | nil =>
    simp only [Bundle.addKey, Bundle.amountOf_cons_mk, Bundle.amountOf_nil]
    by_cases h : k = j <;> simp [h]
  | cons p rest ih =>
    simp only [Bundle.addKey]
    by_cases hpk : p.1 = k
    · rw [if_pos hpk, Bundle.amountOf_cons_mk, Bundle.amountOf_cons]
      by_cases hpj : p.1 = j
      · have hkj : k = j := by rw [← hpk]; exact hpj
        rw [if_pos hpj, if_pos hpj, if_pos hkj]
        omega
      · have hkj : ¬ k = j := by rw [← hpk]; exact hpj
        rw [if_neg hpj, if_neg hpj, if_neg hkj]
        omega
    · rw [if_neg hpk, Bundle.amountOf_cons, Bundle.amountOf_cons, ih]
      by_cases hpj : p.1 = j
      · rw [if_pos hpj, if_pos hpj]
        omega
      · rw [if_neg hpj, if_neg hpj]

theorem Bundle.amountOf_add (a b : Bundle) (j : AssetKey) :
    Bundle.amountOf (Bundle.add a b) j = Bundle.amountOf a j + Bundle.amountOf b j := by
  induction b generalizing a with
  | nil => simp [Bundle.add, Bundle.amountOf_nil]
  | cons q rest ih =>
    show Bundle.amountOf (Bundle.add (Bundle.addKey a q.1 q.2) rest) j = _
    rw [ih, Bundle.amountOf_addKey, Bundle.amountOf_cons]
    by_cases h : q.1 = j
    · rw [if_pos h, if_pos h]
      omega
    · rw [if_neg h, if_neg h]
      omega

theorem Bundle.add_nil (a : Bundle) : Bundle.add a [] = a := rfl

theorem Bundle.checked_add_nil (a : Bundle) : Bundle.checked_add a [] = some a := by
  simp [Bundle.checked_add, Bundle.add_nil]

theorem Bundle.checked_add_eq_some {a b c : Bundle} (h : Bundle.checked_add a b = some c) :
    c = Bundle.add a b := by
  unfold Bundle.checked_add at h
  split at h
  · exact (Option.some.inj h).symm
  · cases h

theorem Bundle.le_amountOf_of_mem {b : Bundle} {p : AssetKey × Nat} (hp : p ∈ b) :
    p.2 ≤ Bundle.amountOf b p.1 := by
  induction b with
  | nil => cases hp
  | cons q rest ih =>
    rcases List.mem_cons.mp hp with h | h
    · subst h; simp [Bundle.amountOf_cons]
    · rw [Bundle.amountOf_cons]
      by_cases hq : q.1 = p.1
      · rw [if_pos hq]
        exact le_trans (ih h) (Nat.le_add_left _ _)
      · simpa [hq] using ih h

theorem Bundle.checked_sub_self (d : Bundle) : Bundle.checked_sub d d = some [] := by
  unfold Bundle.checked_sub
  rw [if_pos (by simp)]
  congr 1
  rw [List.filter_eq_nil_iff]
  intro a ha
  rcases List.mem_map.mp ha with ⟨p, hp, rfl⟩
  simp [Nat.sub_eq_zero_of_le (Bundle.le_amountOf_of_mem hp)]

theorem Bundle.checked_sub_add_isSome (t d : Bundle) :
    (Bundle.checked_sub (Bundle.add t d) d).isSome = true := by
  have hcond :
      (d.all fun q =>
        decide (Bundle.amountOf d q.1 ≤ Bundle.amountOf (Bundle.add t d) q.1)) = true := by
    rw [List.all_eq_true]
    intro q _
    rw [Bundle.amountOf_add]
    exact decide_eq_true (Nat.le_add_left _ _)
  simp only [Bundle.checked_sub, hcond, if_true, Option.isSome_some]

theorem StoreMap.isEmpty_insert (m : StoreMap α) (k : String) (v : α) :
    (m.insert k v).isEmpty = false := by
  cases m with
  | nil => rfl
  | cons p rest =>
    simp only [StoreMap.insert]
    split <;> rfl

theorem activationMsgs_length (o : Option String) : (activationMsgs o).length ≤ 1 := by
  cases o <;> simp [activationMsgs]

/-! ### Settlement sweep lemmas -/

theorem inner_withdraw_loop_processing_fields (addrs : List String) :
    ∀ (s : EscrowState) (t : Bundle) (msgs : List CosmosMsg) (s' : EscrowState)
      (t' : Bundle) (msgs' : List CosmosMsg),
      inner_withdraw_loop true addrs s t msgs = .ok (s', t', msgs') →
      s'.due = s.due ∧ s'.is_funded = s.is_funded ∧ s'.is_locked = s.is_locked ∧
        s'.preset_distribution = s.preset_distribution ∧ s'.initial_due = s.initial_due := by
  induction addrs with
  | nil =>
    intro s t msgs s' t' msgs' h
    simp only [inner_withdraw_loop, Except.ok.injEq, Prod.mk.injEq] at h
    obtain ⟨rfl, -, -⟩ := h
    exact ⟨rfl, rfl, rfl, rfl, rfl⟩
  | cons addr rest ih =>
    intro s t msgs s' t' msgs' h
    simp only [inner_withdraw_loop] at h
    split at h
    · exact ih _ _ _ _ _ _ h
    · split at h
      · exact ih _ _ _ _ _ _ h
      · split at h
        · simpa using ih _ _ _ _ _ _ h
        · next hfalse => exact absurd trivial hfalse

theorem inner_withdraw_loop_processing_balance (addrs : List String) :
    ∀ (s : EscrowState) (t : Bundle) (msgs : List CosmosMsg) (s' : EscrowState)
      (t' : Bundle) (msgs' : List CosmosMsg),
      (s.balance.map Prod.fst).Nodup →
      inner_withdraw_loop true addrs s t msgs = .ok (s', t', msgs') →
      ∀ p ∈ s'.balance, p ∈ s.balance ∧ (p.1 ∈ addrs → p.2.isEmpty = true) := by
  induction addrs with
  | nil =>
    intro s t msgs s' t' msgs' _ h
    simp only [inner_withdraw_loop, Except.ok.injEq, Prod.mk.injEq] at h
    obtain ⟨rfl, -, -⟩ := h
    exact fun p hp => ⟨hp, fun hmem => absurd hmem (List.not_mem_nil _)⟩
  | cons addr rest ih =>
    intro s t msgs s' t' msgs' hnd h
    simp only [inner_withdraw_loop] at h
    split at h
    · next hb =>
        intro p hp
        obtain ⟨hps, hrest⟩ := ih _ _ _ _ _ _ hnd h p hp
        refine ⟨hps, fun hmem => ?_⟩
        rcases List.mem_cons.mp hmem with heq | hmem2
        · exact absurd heq ((StoreMap.get?_eq_none_iff _ _).mp hb p hps)
        · exact hrest hmem2
    · next b hb =>
        split at h
        · next he =>
            intro p hp
            obtain ⟨hps, hrest⟩ := ih _ _ _ _ _ _ hnd h p hp
            refine ⟨hps, fun hmem => ?_⟩
            rcases List.mem_cons.mp hmem with heq | hmem2
            · have h1 := StoreMap.get?_of_mem_nodup hnd hps
              rw [heq, hb] at h1
              rw [← Option.some.inj h1]
              exact he
            · exact hrest hmem2
        · next he =>
            split at h
            · intro p hp
              have hnd1 : ((s.balance.remove addr).map Prod.fst).Nodup :=
                StoreMap.nodup_map_fst_remove addr hnd
              obtain ⟨hps1, hrest⟩ := ih _ _ _ _ _ _ hnd1 h p hp
              refine ⟨List.mem_of_mem_filter hps1, fun hmem => ?_⟩
              rcases List.mem_cons.mp hmem with heq | hmem2
              · have hf := List.of_mem_filter hps1
                rw [heq] at hf
                simp at hf
              · exact hrest hmem2
            · next hfalse => exact absurd trivial hfalse

theorem drainMsgs_congr (addrs : List String) :
    ∀ (m1 m2 : StoreMap Bundle), (∀ x ∈ addrs, m1.get? x = m2.get? x) →
      drainMsgs m1 addrs = drainMsgs m2 addrs := by
  induction addrs with
  | nil =>
    intro m1 m2 _
    rfl
  | cons a rest ih =>
    intro m1 m2 hx
    simp only [drainMsgs]
    rw [hx a (List.mem_cons_self _ _),
      ih m1 m2 (fun x hxr => hx x (List.mem_cons_of_mem _ hxr))]

theorem inner_withdraw_loop_processing_msgs (addrs : List String) :
    ∀ (s : EscrowState) (t : Bundle) (msgs0 : List CosmosMsg) (s' : EscrowState)
      (t' : Bundle) (msgs' : List CosmosMsg),
      addrs.Nodup →
      inner_withdraw_loop true addrs s t msgs0 = .ok (s', t', msgs') →
      msgs' = msgs0 ++ drainMsgs s.balance addrs := by
  induction addrs with
  | nil =>
    intro s t msgs0 s' t' msgs' _ h
    simp only [inner_withdraw_loop, Except.ok.injEq, Prod.mk.injEq] at h
    obtain ⟨-, -, rfl⟩ := h
    simp [drainMsgs]
  | cons a rest ih =>
    intro s t msgs0 s' t' msgs' hnd h
    rw [List.nodup_cons] at hnd
    obtain ⟨ha, hrest⟩ := hnd
    simp only [inner_withdraw_loop] at h
    split at h
    · next hb =>
        rw [ih _ _ _ _ _ _ hrest h]
        simp only [drainMsgs]
        rw [hb]
        simp
    · next b hb =>
        split at h
        · next he =>
            rw [ih _ _ _ _ _ _ hrest h]
            simp only [drainMsgs]
            rw [hb]
            simp [he]
        · next he =>
            split at h
            · rw [ih _ _ _ _ _ _ hrest h]
              have hcg : drainMsgs (s.balance.remove a) rest = drainMsgs s.balance rest :=
                drainMsgs_congr rest _ _ (fun x hx =>
                  StoreMap.get?_remove_ne s.balance a x (fun hh => ha (hh ▸ hx)))
              simp only [drainMsgs]
              rw [hb, hcg]
              simp [he, List.append_assoc]
            · next hfalse => exact absurd trivial hfalse

theorem drainMsgs_keys (m : StoreMap Bundle) :
    (m.map Prod.fst).Nodup → drainMsgs m (m.map Prod.fst) = sweepMsgs m := by
  induction m with
  | nil =>
    intro _
    rfl
  | cons p rest ih =>
    intro hnd
    rw [List.map_cons, List.nodup_cons] at hnd
    obtain ⟨hp, hrest⟩ := hnd
    simp only [List.map_cons, drainMsgs, sweepMsgs, List.foldr_cons]
    rw [show StoreMap.get? (p :: rest) p.1 = some p.2 by simp [StoreMap.get?]]
    rw [drainMsgs_congr (rest.map Prod.fst) (p :: rest) rest
      (fun x hx => by
        simp only [StoreMap.get?]
        rw [if_neg (fun hh => hp (by rw [hh]; exact hx))])]
    rw [ih hrest]
    rfl

theorem save_splits_fields (amounts : List (String × Bundle)) :
    ∀ (s s' : EscrowState), save_splits s amounts = .ok s' →
      s'.due = s.due ∧ s'.is_funded = s.is_funded ∧ s'.is_locked = s.is_locked ∧
        s'.preset_distribution = s.preset_distribution ∧ s'.initial_due = s.initial_due ∧
        s'.total_balance = s.total_balance := by
  induction amounts with
  | nil =>
    intro s s' h
    simp only [save_splits, Except.ok.injEq] at h
    subst h
    exact ⟨rfl, rfl, rfl, rfl, rfl, rfl⟩
  | cons da rest ih =>
    intro s s' h
    simp only [save_splits] at h
    split at h
    · split at h
      · simp at h
      · simpa using ih _ _ h
    · simpa using ih _ _ h

theorem save_splits_nodup (amounts : List (String × Bundle)) :
    ∀ (s s' : EscrowState), (s.balance.map Prod.fst).Nodup → save_splits s amounts = .ok s' →
      (s'.balance.map Prod.fst).Nodup := by
  induction amounts with
  | nil =>
    intro s s' hnd h
    simp only [save_splits, Except.ok.injEq] at h
    subst h
    exact hnd
  | cons da rest ih =>
    intro s s' hnd h
    simp only [save_splits] at h
    split at h
    · split at h
      · simp at h
      · next subs _ =>
          exact ih _ _ (StoreMap.nodup_foldl_insert subs _ hnd) h
    · exact ih _ _ (StoreMap.nodup_map_fst_insert _ _ hnd) h

theorem distribute_step_nodup {s : EscrowState} {dist : Option (List (String × Nat))}
    {rem : String} {s1 : EscrowState} (hnd : (s.balance.map Prod.fst).Nodup)
    (h : distribute_step s dist rem = .ok s1) : (s1.balance.map Prod.fst).Nodup := by
  simp only [distribute_step] at h
  split at h
  · simp only [Except.ok.injEq] at h
    rw [← h]
    exact hnd
  · split at h
    · simp at h
    · split at h
      · simp at h
      · next amounts hsp =>
          exact save_splits_nodup amounts _ _ (by simp) h

theorem inner_withdraw_processing_eq (s : EscrowState) (addrs : List String) :
    inner_withdraw s addrs true =
      match inner_withdraw_loop true addrs s [] [] with
      | .error e => .error e
      | .ok (s1, _, msgs) => .ok ({ s1 with total_balance := none }, msgs) := rfl

/-- Shared postcondition of a successful distribute: lock cleared, Due,
IsFunded and the overrides wiped, TotalBalance slot removed. -/
theorem distribute_ok_fields {o : Option String} {s : EscrowState} {sender : String}
    {dist : Option (List (String × Nat))} {rem : String} {s' : EscrowState}
    {msgs : List CosmosMsg}
    (h : distribute o s sender dist rem = .ok (s', msgs)) :
    s'.is_locked = false ∧ s'.due = [] ∧ s'.is_funded = [] ∧
      s'.preset_distribution = [] ∧ s'.total_balance = none := by
  simp only [distribute] at h
  split at h
  · split at h
    · split at h
      · simp at h
      · next s1 hstep =>
          rw [inner_withdraw_processing_eq] at h
          split at h
          · simp at h
          · next sl tl ml hloop =>
              simp only [Except.ok.injEq, Prod.mk.injEq] at h
              obtain ⟨h1, -⟩ := h
              obtain ⟨hd, hf, hl, hp, -⟩ :=
                inner_withdraw_loop_processing_fields _ _ _ _ _ _ _ hloop
              subst h1
              exact ⟨hl, hd, hf, hp, rfl⟩
    · simp at h
  · simp at h

/-! ### Split algorithm lemmas -/

theorem Bundle.amountOf_map_filter (total : Bundle) (f : Nat → Nat) (hf : f 0 = 0)
    (hnt : (total.map Prod.fst).Nodup) (k : AssetKey) :
    Bundle.amountOf ((total.map (fun p => (p.1, f p.2))).filter (fun p => p.2 != 0)) k =
      f (Bundle.amountOf total k) := by
  induction total with
  | nil => simpa using hf.symm
  | cons p rest ih =>
    rw [List.map_cons, List.nodup_cons] at hnt
    obtain ⟨hp, hrest⟩ := hnt
    rw [List.map_cons, List.filter_cons]
    by_cases hk : p.1 = k
    · have hz : Bundle.amountOf rest k = 0 := by
        apply Bundle.amountOf_eq_zero
        intro q hq hqk
        have hmem : q.1 ∈ rest.map Prod.fst := List.mem_map_of_mem Prod.fst hq
        rw [hqk, ← hk] at hmem
        exact hp hmem
      by_cases hfz : f p.2 = 0
      · rw [if_neg (by simp [hfz]), ih hrest, hz, hf, Bundle.amountOf_cons, if_pos hk, hz,
          Nat.add_zero]
        exact hfz.symm
      · rw [if_pos (by simp [hfz]), Bundle.amountOf_cons_mk, if_pos hk, ih hrest, hz, hf,
          Nat.add_zero, Bundle.amountOf_cons, if_pos hk, hz, Nat.add_zero]
    · by_cases hfz : f p.2 = 0
      · rw [if_neg (by simp [hfz]), ih hrest, Bundle.amountOf_cons, if_neg hk]
      · rw [if_pos (by simp [hfz]), Bundle.amountOf_cons_mk, if_neg hk, ih hrest,
          Bundle.amountOf_cons, if_neg hk]

theorem StoreMap.get?_map_entries {α : Type} (dist : List (String × Nat)) (g : Nat → α)
    (a : String) :
    StoreMap.get? (dist.map (fun m => (m.1, g m.2))) a = (StoreMap.get? dist a).map g := by
  induction dist with
  | nil => rfl
  | cons m rest ih =>
    by_cases h : m.1 = a
    · simp [StoreMap.get?, h]
    · simp [StoreMap.get?, h, ih]

theorem get?_addRemainder_ne (shares : List (String × Bundle)) (rem : String) (r : Bundle)
    (a : String) (h : a ≠ rem) :
    StoreMap.get? (addRemainder shares rem r) a = StoreMap.get? shares a := by
  induction shares with
  | nil =>
    simp only [addRemainder]
    split
    · rfl
    · simp only [StoreMap.get?]
      rw [if_neg (fun hh => h hh.symm)]
  | cons q rest ih =>
    obtain ⟨a0, b0⟩ := q
    simp only [addRemainder]
    by_cases hq : a0 = rem
    · rw [if_pos hq]
      have hne : ¬ a0 = a := fun hh => h (by rw [← hh]; exact hq)
      simp only [StoreMap.get?]
      rw [if_neg hne, if_neg hne]
    · rw [if_neg hq]
      simp only [StoreMap.get?]
      by_cases ha : a0 = a
      · rw [if_pos ha, if_pos ha]
      · rw [if_neg ha, if_neg ha]
        exact ih

theorem get?_addRemainder_self_of_none (shares : List (String × Bundle)) (rem : String)
    (r : Bundle) (h : StoreMap.get? shares rem = none) :
    StoreMap.get? (addRemainder shares rem r) rem =
      if r.isEmpty then none else some r := by
  induction shares with
  | nil =>
    simp only [addRemainder]
    by_cases hre : r.isEmpty
    · rw [if_pos hre, if_pos hre]
      rfl
    · rw [if_neg hre, if_neg hre]
      simp [StoreMap.get?]
  | cons q rest ih =>
    obtain ⟨a0, b0⟩ := q
    simp only [StoreMap.get?] at h
    by_cases hq : a0 = rem
    · rw [if_pos hq] at h
      cases h
    · rw [if_neg hq] at h
      simp only [addRemainder]
      rw [if_neg hq]
      simp only [StoreMap.get?]
      rw [if_neg hq]
      exact ih h

theorem get?_addRemainder_self_of_some (shares : List (String × Bundle)) (rem : String)
    (r : Bundle) (b : Bundle) (h : StoreMap.get? shares rem = some b) :
    StoreMap.get? (addRemainder shares rem r) rem = some (Bundle.add b r) := by
  induction shares with
  | nil =>
    simp only [StoreMap.get?] at h
    cases h
  | cons q rest ih =>
    obtain ⟨a0, b0⟩ := q
    simp only [StoreMap.get?] at h
    by_cases hq : a0 = rem
    · rw [if_pos hq] at h
      obtain rfl : b0 = b := Option.some.inj h
      simp only [addRemainder]
      rw [if_pos hq]
      simp only [StoreMap.get?]
      rw [if_pos hq]
    · rw [if_neg hq] at h
      simp only [addRemainder]
      rw [if_neg hq]
      simp only [StoreMap.get?]
      rw [if_neg hq]
      exact ih h

/-! ### Claim theorems -/

/-- C1: the conservation invariant (sum of all Balance entries equals the
stored TotalBalance) is violated at a reachable quiescent point.  Starting
from instantiation with A owing 100 native "u", two successful partial
deposits of 30 each leave the Balance map summing to 60 while TotalBalance
stores 90: receive_balance adds the party's cumulative balance (the value
returned by BALANCE.update, bound to the shadowed variable at execute.rs
line 193) to TOTAL_BALANCE at line 220 instead of the deposited bundle. -/
theorem deposit_breaks_balance_conservation :
    ((receive_native none (instantiate [("A", [(AssetKey.native "u", 100)])]) "A"
        [("u", 30)]).bind
      (fun r => receive_native none r.1 "A" [("u", 30)])).toOption.map
      (fun r => (StoreMap.sumAmount r.1.balance (AssetKey.native "u"),
        Bundle.amountOf (r.1.total_balance.getD []) (AssetKey.native "u"))) =
      some (60, 90) ∧ (60 : Nat) ≠ 90 :=
  ⟨by decide, by decide⟩

/-- C2: TotalBalance is not increased by exactly the deposited bundle on a
repeat deposit.  After A (owing 100 "u") deposits 30, TotalBalance is 30;
after a second deposit of 30 it is 90, not 60: the code adds the cumulative
stored balance instead of the deposited bundle (execute.rs lines 193 and
220-222). -/
theorem deposit_total_adds_cumulative :
    ((receive_native none (instantiate [("A", [(AssetKey.native "u", 100)])]) "A"
        [("u", 30)]).toOption.map (fun r => r.1.total_balance) =
      some (some [(AssetKey.native "u", 30)])) ∧
    (((receive_native none (instantiate [("A", [(AssetKey.native "u", 100)])]) "A"
        [("u", 30)]).bind (fun r => receive_native none r.1 "A" [("u", 30)])).toOption.map
      (fun r => r.1.total_balance) = some (some [(AssetKey.native "u", 90)])) ∧
    (90 : Nat) ≠ 30 + 30 :=
  ⟨by decide, by decide, by decide⟩

/-- C3: the stored Due entry does not equal the original amount owed minus
the cumulative deposits.  With A owing 100 "u", deposits of 30 and 30 leave
Due at 10 instead of 40 (the cumulative balance is subtracted from the
already-reduced stored due, execute.rs lines 197-198), and a second partial
deposit can fail outright: deposits of 40 and 40 abort with an underflow
because 80 cannot be subtracted from the reduced due of 60. -/
theorem second_deposit_double_subtracts_due :
    (((receive_native none (instantiate [("A", [(AssetKey.native "u", 100)])]) "A"
        [("u", 30)]).bind (fun r => receive_native none r.1 "A" [("u", 30)])).toOption.map
      (fun r => r.1.due) = some [("A", [(AssetKey.native "u", 10)])]) ∧
    [("A", [(AssetKey.native "u", 10)])] ≠ [("A", [(AssetKey.native "u", 40)])] ∧
    (((receive_native none (instantiate [("A", [(AssetKey.native "u", 100)])]) "A"
        [("u", 40)]).bind (fun r => receive_native none r.1 "A" [("u", 40)])).toOption =
      none) :=
  ⟨by decide, by decide, by decide⟩

/-- C4: IsFullyFunded is by definition the emptiness of the Due map, and a
successful deposit sets IsLocked whenever the Due map ends empty and then
queues exactly one activation instruction when an owner is configured and
none otherwise; no other deposit queues any message. -/
theorem receive_balance_funding_transition (o : Option String) (s : EscrowState)
    (addr : String) (bal : Bundle) (s' : EscrowState) (msgs : List CosmosMsg)
    (h : receive_balance o s addr bal = .ok (s', msgs)) :
    is_fully_funded s' = s'.due.isEmpty ∧
    (s'.due.isEmpty = true → s'.is_locked = true) ∧
    msgs = (if s'.due.isEmpty then activationMsgs o else []) ∧
    msgs.length ≤ 1 := by
  simp only [receive_balance] at h
  split at h
  · split at h
    · simp at h
    · next cum hcum =>
        split at h
        · simp at h
        · next due hdue =>
            split at h
            · simp at h
            · next nd hnd =>
                by_cases hempty : nd.isEmpty
                · rw [if_pos hempty] at h
                  by_cases hfull : ((s.due.remove addr).isEmpty : Bool)
                  · rw [if_pos hfull] at h
                    split at h
                    · simp at h
                    · next t ht =>
                        split at h
                        · simp at h
                        · next t2 ht2 =>
                            simp only [Except.ok.injEq, Prod.mk.injEq] at h
                            obtain ⟨h1, h2⟩ := h
                            subst h1
                            subst h2
                            refine ⟨rfl, fun _ => rfl, ?_, activationMsgs_length o⟩
                            rw [if_pos hfull]
                  · rw [if_neg hfull] at h
                    split at h
                    · simp at h
                    · next t ht =>
                        split at h
                        · simp at h
                        · next t2 ht2 =>
                            simp only [Except.ok.injEq, Prod.mk.injEq] at h
                            obtain ⟨h1, h2⟩ := h
                            subst h1
                            subst h2
                            refine ⟨rfl, fun habs => absurd habs hfull, ?_, by simp⟩
                            rw [if_neg hfull]
                · rw [if_neg hempty] at h
                  split at h
                  · simp at h
                  · next t ht =>
                      split at h
                      · simp at h
                      · next t2 ht2 =>
                          simp only [Except.ok.injEq, Prod.mk.injEq] at h
                          obtain ⟨h1, h2⟩ := h
                          subst h1
                          subst h2
                          have hne : (({ s with
                              balance := s.balance.insert addr cum }).due.insert addr
                                nd).isEmpty = false :=
                            StoreMap.isEmpty_insert _ addr nd
                          refine ⟨rfl, ?_, ?_, by simp⟩
                          · intro habs
                            rw [habs] at hne
                            cases hne
                          · rw [if_neg (by rw [hne]; exact fun habs => Bool.noConfusion habs)]
  · simp at h

/-- C4 witness: instantiating with A owing 10 "u" under owner "own", the
full deposit empties Due, locks the escrow and queues exactly one
activation instruction addressed to the owner. -/
theorem receive_balance_funding_transition_witness :
    is_fully_funded fundedOneParty = fundedOneParty.due.isEmpty ∧
    (fundedOneParty.due.isEmpty = true → fundedOneParty.is_locked = true) ∧
    [CosmosMsg.activate "own"] =
      (if fundedOneParty.due.isEmpty then activationMsgs (some "own") else []) ∧
    ([CosmosMsg.activate "own"] : List CosmosMsg).length ≤ 1 :=
  receive_balance_funding_transition (some "own")
    (instantiate [("A", [(AssetKey.native "u", 10)])]) "A" [(AssetKey.native "u", 10)]
    fundedOneParty [CosmosMsg.activate "own"] rfl

/-- C5 counterexample: a successful distribute does not always leave the
Balance map empty.  With one unit of "u" pooled and the distribution
[(A,1),(B,1)] with remainder A, B's floor share is the empty bundle; the
settlement sweep skips the empty entry without removing it, so B remains in
the Balance map after distribute completes. -/
theorem distribute_can_leave_balance_entries :
    (distribute (some "o") oneUnitFunded "o"
        (some [("A", 1), ("B", 1)]) "A").toOption.map (fun r => r.1.balance) =
      some [("B", [])] ∧
    some [("B", ([] : Bundle))] ≠ some ([] : StoreMap Bundle) :=
  ⟨by decide, by decide⟩

/-- C5 (amended): distribute fails with Unauthorized for a non-owner caller
and with NotFunded while Due is non-empty; a successful distribute resets
IsLocked, clears Due and all overrides, removes the TotalBalance slot, and
drains every non-empty Balance entry at sweep time into outbound transfer
instructions: the queued messages are exactly the transfer instructions of
every non-empty entry of the recomputation-step balance map, in storage
order, so every entry still present afterwards holds an empty bundle
(entries whose stored balance is empty are skipped by the sweep and may
remain). -/
theorem distribute_settlement_behavior (o : Option String) (s : EscrowState)
    (sender : String) (dist : Option (List (String × Nat))) (rem : String) :
    (o ≠ some sender → distribute o s sender dist rem = .error .unauthorized) ∧
    (o = some sender → is_fully_funded s = false →
      distribute o s sender dist rem = .error .notFunded) ∧
    ((s.balance.map Prod.fst).Nodup → ∀ s' msgs,
      distribute o s sender dist rem = .ok (s', msgs) →
      s'.is_locked = false ∧ s'.due = [] ∧ s'.preset_distribution = [] ∧
        s'.total_balance = none ∧ s'.balance.all (fun p => p.2.isEmpty) = true ∧
        ∃ s1, distribute_step s dist rem = .ok s1 ∧ msgs = sweepMsgs s1.balance) := by
  refine ⟨?_, ?_, ?_⟩
  · intro hne
    simp only [distribute]
    rw [if_neg hne]
  · intro heq hnf
    simp only [distribute]
    rw [if_pos heq, if_neg (by rw [hnf]; exact fun habs => Bool.noConfusion habs)]
  · intro hnd s' msgs h
    obtain ⟨hl, hd, hf, hp, ht⟩ := distribute_ok_fields h
    simp only [distribute] at h
    split at h
    · split at h
      · split at h
        · simp at h
        · next s1 hstep =>
            rw [inner_withdraw_processing_eq] at h
            split at h
            · simp at h
            · next sl tl ml hloop =>
                simp only [Except.ok.injEq, Prod.mk.injEq] at h
                obtain ⟨h1, h2⟩ := h
                have hnd1 : (s1.balance.map Prod.fst).Nodup := distribute_step_nodup hnd hstep
                have hbal : s'.balance = sl.balance := by rw [← h1]
                have hall : s'.balance.all (fun p => p.2.isEmpty) = true := by
                  rw [List.all_eq_true]
                  intro p hp2
                  rw [hbal] at hp2
                  obtain ⟨hmem, himp⟩ :=
                    inner_withdraw_loop_processing_balance (s1.balance.map Prod.fst)
                      { s1 with is_locked := false
                                due := ([] : StoreMap Bundle)
                                is_funded := ([] : StoreMap Bool)
                                preset_distribution := ([] : StoreMap (List (String × Nat))) }
                      [] [] sl tl ml hnd1 hloop p hp2
                  exact himp (List.mem_map_of_mem Prod.fst hmem)
                have hmsgs : msgs = sweepMsgs s1.balance := by
                  have hml := inner_withdraw_loop_processing_msgs (s1.balance.map Prod.fst)
                    { s1 with is_locked := false
                              due := ([] : StoreMap Bundle)
                              is_funded := ([] : StoreMap Bool)
                              preset_distribution := ([] : StoreMap (List (String × Nat))) }
                    [] [] sl tl ml hnd1 hloop
                  rw [← h2, hml, List.nil_append]
                  exact drainMsgs_keys s1.balance hnd1
                exact ⟨hl, hd, hp, ht, hall, s1, hstep, hmsgs⟩
      · simp at h
    · simp at h

/-- C5 witness: on the one-unit scenario with owner "o" the amended
postconditions hold for the concrete run, including that the queued
messages are exactly the sweep of the recomputation-step balance map
(A's one unit drained, B's empty share skipped). -/
theorem distribute_settlement_behavior_witness :
    settledEmptyEntry.is_locked = false ∧ settledEmptyEntry.due = [] ∧
    settledEmptyEntry.preset_distribution = [] ∧
    settledEmptyEntry.total_balance = none ∧
    settledEmptyEntry.balance.all (fun p => p.2.isEmpty) = true ∧
    ∃ s1, distribute_step oneUnitFunded (some [("A", 1), ("B", 1)]) "A" = .ok s1 ∧
      [CosmosMsg.transfer "A" (AssetKey.native "u") 1] = sweepMsgs s1.balance :=
  (distribute_settlement_behavior (some "o") oneUnitFunded "o"
      (some [("A", 1), ("B", 1)]) "A").2.2 (by decide) settledEmptyEntry
    [CosmosMsg.transfer "A" (AssetKey.native "u") 1] rfl

/-- C6: a direct Withdraw while the escrow is locked aborts with the Locked
error; in the transactional model an error result carries no state change
and no queued messages. -/
theorem withdraw_locked_rejected (s : EscrowState) (sender : String)
    (h : is_locked s = true) : withdraw s sender = .error .locked := by
  simp [withdraw, h]

/-- C6 witness: a concrete locked escrow rejects a withdraw. -/
theorem withdraw_locked_rejected_witness :
    withdraw lockedEscrow "A" = .error .locked :=
  withdraw_locked_rejected lockedEscrow "A" rfl

/-- C10: after any completed distribute the TotalBalance slot is absent and
a subsequent direct Withdraw by any caller aborts with the storage-load
error when TOTAL_BALANCE is loaded, instead of succeeding as a no-op. -/
theorem distribute_removes_total_then_withdraw_fails (o : Option String)
    (s : EscrowState) (sender : String) (dist : Option (List (String × Nat)))
    (rem : String) (s' : EscrowState) (msgs : List CosmosMsg)
    (h : distribute o s sender dist rem = .ok (s', msgs)) :
    s'.total_balance = none ∧ ∀ caller, withdraw s' caller = .error .notFound := by
  obtain ⟨hl, -, -, -, ht⟩ := distribute_ok_fields h
  refine ⟨ht, fun caller => ?_⟩
  simp [withdraw, is_locked, hl, inner_withdraw, ht]

/-- C10 witness: after a concrete distribute with no distribution supplied,
TotalBalance is gone and a withdraw by an uninvolved caller fails with the
storage-load error. -/
theorem distribute_removes_total_then_withdraw_fails_witness :
    settledDrained.total_balance = none ∧
    withdraw settledDrained "Z" = .error .notFound :=
  ⟨(distribute_removes_total_then_withdraw_fails (some "o") oneUnitFunded "o" none "A"
      settledDrained [CosmosMsg.transfer "A" (AssetKey.native "u") 1] rfl).1,
    (distribute_removes_total_then_withdraw_fails (some "o") oneUnitFunded "o" none "A"
      settledDrained [CosmosMsg.transfer "A" (AssetKey.native "u") 1] rfl).2 "Z"⟩

/-- C7: for a party whose stored Due entry is the non-empty bundle d, whose
balance is not yet stored, depositing exactly d in one deposit (no overflow
of the running total, hadd) while some other party is still due (so the
escrow does not lock) and then withdrawing directly restores the Due entry
to d and emits exactly the transfer instructions for d. -/
theorem deposit_withdraw_roundtrip (o : Option String) (s : EscrowState) (p : String)
    (d t t2 : Bundle)
    (hdue : s.due.get? p = some d)
    (hdne : d.isEmpty = false)
    (hbal : s.balance.get? p = none)
    (hlock : s.is_locked = false)
    (hrem : (s.due.remove p).isEmpty = false)
    (htot : s.total_balance = some t)
    (hadd : Bundle.checked_add t d = some t2) :
    ((receive_balance o s p d).bind (fun r => withdraw r.1 p)).toOption.map
      (fun r => (r.1.due.get? p, r.2)) = some (some d, d.transmit_all p) := by
  have hhas : s.due.has p = true := by simp [StoreMap.has, hdue]
  obtain rfl : t2 = Bundle.add t d := Bundle.checked_add_eq_some hadd
  obtain ⟨r, hr⟩ := Option.isSome_iff_exists.mp (Bundle.checked_sub_add_isSome t d)
  simp [receive_balance, hhas, hbal, hdue, hrem, htot, hadd, hdne, hlock, hr,
    Bundle.checked_add_nil, Bundle.checked_sub_self, withdraw, is_locked, inner_withdraw,
    inner_withdraw_loop, StoreMap.get?_insert_self, StoreMap.get?_remove_self,
    Except.toOption, Except.bind]

/-- C7 witness: on the two-party escrow, A deposits its full due of 100 "u"
and withdraws it again: Due\[A\] is back to 100 "u" and the transfer
instructions cover exactly the deposited bundle. -/
theorem deposit_withdraw_roundtrip_witness :
    ((receive_balance none twoPartyEscrow "A" [(AssetKey.native "u", 100)]).bind
      (fun r => withdraw r.1 "A")).toOption.map (fun r => (r.1.due.get? "A", r.2)) =
      some (some [(AssetKey.native "u", 100)],
        Bundle.transmit_all [(AssetKey.native "u", 100)] "A") :=
  deposit_withdraw_roundtrip none twoPartyEscrow "A" [(AssetKey.native "u", 100)] []
    [(AssetKey.native "u", 100)] rfl rfl rfl rfl rfl rfl rfl

/-- C8: the weighted split gives every listed recipient other than the
remainder recipient, per asset component, the floor of amount times weight
over the weight sum, and gives the remainder recipient its own floor share
(zero when unlisted) plus the whole residual amount minus the sum of all
floors.  The distribution and bundle keys are assumed unique, as stored
maps and validated distributions are. -/
theorem split_floor_and_remainder (total : Bundle) (dist : List (String × Nat))
    (rem : String) (shares : List (String × Bundle))
    (hnt : (total.map Prod.fst).Nodup) (hnd : (dist.map Prod.fst).Nodup)
    (h : Bundle.split total dist rem = .ok shares) :
    (∀ mw ∈ dist, mw.1 ≠ rem →
      ∃ b, StoreMap.get? shares mw.1 = some b ∧
        ∀ k, Bundle.amountOf b k = Bundle.amountOf total k * mw.2 / weightSum dist) ∧
    (∀ k, Bundle.amountOf ((StoreMap.get? shares rem).getD []) k =
      Bundle.amountOf total k * ((StoreMap.get? dist rem).getD 0) / weightSum dist +
        (Bundle.amountOf total k -
          (dist.map (fun m => Bundle.amountOf total k * m.2 / weightSum dist)).sum)) := by
  simp only [Bundle.split] at h
  split at h
  · cases h
  · obtain rfl := Except.ok.inj h
    constructor
    · intro mw hmw hne
      refine ⟨Bundle.floorShare total mw.2 (weightSum dist), ?_, ?_⟩
      · have hmap : StoreMap.get?
            (dist.map (fun m => (m.1, Bundle.floorShare total m.2 (weightSum dist)))) mw.1 =
            (StoreMap.get? dist mw.1).map
              (fun a => Bundle.floorShare total a (weightSum dist)) :=
          StoreMap.get?_map_entries dist
            (fun a => Bundle.floorShare total a (weightSum dist)) mw.1
        rw [get?_addRemainder_ne _ _ _ _ hne, hmap, StoreMap.get?_of_mem_nodup hnd hmw]
        rfl
      · intro k
        exact Bundle.amountOf_map_filter total (fun a => a * mw.2 / weightSum dist)
          (by simp) hnt k
    · intro k
      have hres : Bundle.amountOf (Bundle.residualShare total dist (weightSum dist)) k =
          Bundle.amountOf total k -
            (dist.map (fun m => Bundle.amountOf total k * m.2 / weightSum dist)).sum :=
        Bundle.amountOf_map_filter total
          (fun a => a - (dist.map (fun m => a * m.2 / weightSum dist)).sum) (by simp) hnt k
      have hmapr : StoreMap.get?
          (dist.map (fun m => (m.1, Bundle.floorShare total m.2 (weightSum dist)))) rem =
          (StoreMap.get? dist rem).map
            (fun a => Bundle.floorShare total a (weightSum dist)) :=
        StoreMap.get?_map_entries dist
          (fun a => Bundle.floorShare total a (weightSum dist)) rem
      cases hw : StoreMap.get? dist rem with
      | none =>
        rw [get?_addRemainder_self_of_none _ _ _ (by rw [hmapr, hw]; rfl)]
        by_cases hre : (Bundle.residualShare total dist (weightSum dist)).isEmpty
        · rw [if_pos hre]
          have hrnil : Bundle.residualShare total dist (weightSum dist) = [] := by
            rwa [List.isEmpty_iff] at hre
          rw [hrnil] at hres
          simp only [Option.getD_none, Bundle.amountOf_nil] at hres ⊢
          simp [← hres]
        · rw [if_neg hre]
          simp only [Option.getD_some]
          rw [hres]
          simp
      | some w =>
        rw [get?_addRemainder_self_of_some _ _ _ (Bundle.floorShare total w (weightSum dist))
          (by rw [hmapr, hw]; rfl)]
        simp only [Option.getD_some]
        have hfl : Bundle.amountOf (Bundle.floorShare total w (weightSum dist)) k =
            Bundle.amountOf total k * w / weightSum dist :=
          Bundle.amountOf_map_filter total (fun a => a * w / weightSum dist) (by simp) hnt k
        rw [Bundle.amountOf_add, hres, hfl]

/-- C8 witness: splitting 100 native "u" over \[(A,1),(B,1),(C,1)\] with
remainder A yields 34 for A and 33 each for B and C, and the remainder
formula of the split theorem instantiates to A's 34. -/
theorem split_floor_and_remainder_witness :
    Bundle.split [(AssetKey.native "u", 100)] [("A", 1), ("B", 1), ("C", 1)] "A" =
      .ok [("A", [(AssetKey.native "u", 34)]), ("B", [(AssetKey.native "u", 33)]),
        ("C", [(AssetKey.native "u", 33)])] ∧
    Bundle.amountOf
        ((StoreMap.get? [("A", [(AssetKey.native "u", 34)]), ("B", [(AssetKey.native "u", 33)]),
          ("C", [(AssetKey.native "u", 33)])] "A").getD []) (AssetKey.native "u") =
      Bundle.amountOf [(AssetKey.native "u", 100)] (AssetKey.native "u") *
          ((StoreMap.get? [("A", 1), ("B", 1), ("C", 1)] "A").getD 0) /
          weightSum [("A", 1), ("B", 1), ("C", 1)] +
        (Bundle.amountOf [(AssetKey.native "u", 100)] (AssetKey.native "u") -
          (([("A", 1), ("B", 1), ("C", 1)] : List (String × Nat)).map
            (fun m => Bundle.amountOf [(AssetKey.native "u", 100)] (AssetKey.native "u") *
              m.2 / weightSum [("A", 1), ("B", 1), ("C", 1)])).sum) :=
  ⟨rfl,
    (split_floor_and_remainder [(AssetKey.native "u", 100)] [("A", 1), ("B", 1), ("C", 1)]
      "A"
      [("A", [(AssetKey.native "u", 34)]), ("B", [(AssetKey.native "u", 33)]),
        ("C", [(AssetKey.native "u", 33)])]
      (by decide) (by decide) rfl).2 (AssetKey.native "u")⟩

/-- C9: every computed share is written to Balance with a plain save keyed
by the recipient, so when the same settlement writes two shares for one
address — here a top-level share b1 for x followed by an override sub-share
b2 for x produced from depositor d's preset — the later save replaces the
earlier entry instead of adding to it. -/
theorem distribute_plain_save_overwrites (s : EscrowState) (x d : String)
    (b1 bd b2 : Bundle) (pd : List (String × Nat))
    (hx : s.preset_distribution.get? x = none)
    (hd : s.preset_distribution.get? d = some pd)
    (hsplit : Bundle.split bd pd d = .ok [(x, b2)]) :
    (save_splits s [(x, b1), (d, bd)]).toOption.map (fun s2 => s2.balance.get? x) =
      some (some b2) := by
  simp only [save_splits, hx, hd, hsplit]
  simp [StoreMap.get?_insert_self, Except.toOption]

/-- C9 witness: with D's override \[(X,1)\], saving X's top-level 70 "u"
and then D's 50 "u" (whose override share goes wholly to X) leaves X's
balance at 50 "u", not 120 "u". -/
theorem distribute_plain_save_overwrites_witness :
    (save_splits presetEscrow
        [("X", [(AssetKey.native "u", 70)]), ("D", [(AssetKey.native "u", 50)])]).toOption.map
      (fun s2 => s2.balance.get? "X") = some (some [(AssetKey.native "u", 50)]) :=
  distribute_plain_save_overwrites presetEscrow "X" "D" [(AssetKey.native "u", 70)]
    [(AssetKey.native "u", 50)] [(AssetKey.native "u", 50)] [("X", 1)] rfl rfl rfl

end ArenaEscrow
